import Mathlib

/-!
Verification development for a webhook message-ingestion service
(`src/main.py`): HMAC-authenticated ingestion into a uniquely-keyed
message store, a filtered/paginated/ordered query endpoint, and an
aggregate statistics endpoint.  The Python source is shallowly embedded:
pure validation logic becomes Lean functions, the sqlite `messages`
table becomes a `List Row` (insertion order = rowid order), and the
request handlers become explicit state-passing functions.  Library
primitives that are external to the repository (HMAC-SHA256, `json.loads`)
are passed as function parameters; their use sites mirror the source.
-/

namespace Lyftr

/-- A stored row of the sqlite `messages` table (see `startup` in
`src/main.py`): `message_id TEXT PRIMARY KEY`, `from_msisdn`, `to_msisdn`,
`ts`, `created_at` all `TEXT NOT NULL`, `text TEXT` nullable
(`Option String`).  The store itself is a `List Row` in insertion order;
the PRIMARY KEY constraint is modelled by the duplicate check in
`insertMessage` and by `Nodup` hypotheses on the list of ids. -/
structure Row where
  message_id : String
  from_msisdn : String
  to_msisdn : String
  ts : String
  text : Option String
  created_at : String
deriving DecidableEq, Repr

/-- ASCII digit test: the `\d` class of `E164_REGEX` as it applies to the
digit characters of phone numbers. -/
def isDigitChar (c : Char) : Bool := '0' ≤ c && c ≤ '9'

/-- The code-point ranges of the Unicode decimal digits (category Nd,
Unicode 14.0 as shipped with CPython 3.11): the character class matched
by Python's `\d` on a `str` pattern. -/
def ndRanges : List (Nat × Nat) :=
  [(48, 57), (1632, 1641), (1776, 1785), (1984, 1993), (2406, 2415),
   (2534, 2543), (2662, 2671), (2790, 2799), (2918, 2927), (3046, 3055),
   (3174, 3183), (3302, 3311), (3430, 3439), (3558, 3567), (3664, 3673),
   (3792, 3801), (3872, 3881), (4160, 4169), (4240, 4249), (6112, 6121),
   (6160, 6169), (6470, 6479), (6608, 6617), (6784, 6793), (6800, 6809),
   (6992, 7001), (7088, 7097), (7232, 7241), (7248, 7257), (42528, 42537),
   (43216, 43225), (43264, 43273), (43472, 43481), (43504, 43513),
   (43600, 43609), (44016, 44025), (65296, 65305), (66720, 66729),
   (68912, 68921), (69734, 69743), (69872, 69881), (69942, 69951),
   (70096, 70105), (70384, 70393), (70736, 70745), (70864, 70873),
   (71248, 71257), (71360, 71369), (71472, 71481), (71904, 71913),
   (72016, 72025), (72784, 72793), (73040, 73049), (73120, 73129),
   (92768, 92777), (92864, 92873), (93008, 93017), (120782, 120831),
   (123200, 123209), (123632, 123641), (125264, 125273), (130032, 130041)]

/-- Python's `\d` on a `str` pattern: any Unicode decimal digit. -/
def pyDigit (c : Char) : Bool :=
  ndRanges.any (fun p => p.1 ≤ c.toNat && c.toNat ≤ p.2)

/-- The body of `E164_REGEX` between the anchors: a leading plus sign, a
first digit in the literal ASCII class `[1-9]`, then 1 to 14 further
Unicode digits (`\d{1,14}`), and nothing else. -/
def e164Core (cs : List Char) : Bool :=
  match cs with
  | a :: c :: rest =>
      (a == '+') && ('1' ≤ c && c ≤ '9') && rest.all pyDigit &&
        decide (1 ≤ rest.length) && decide (rest.length ≤ 14)
  | _ => false

/-- Python's `$` matches at the end of the string or just before a
newline at the end of the string, so a `...$` pattern tolerates exactly
one final newline; this strips it. -/
def stripFinalNewline (cs : List Char) : List Char :=
  if cs.getLast? == some '\n' then cs.dropLast else cs

/-- Recognizer for `E164_REGEX.match` (src/main.py line 16,
`^\+[1-9]\d{1,14}$`) with Python `re` semantics: `\d` matches any
Unicode decimal digit and `$` also matches just before one trailing
newline. -/
def e164Match (s : String) : Bool := e164Core (stripFinalNewline s.data)

/-- The E.164 shape as the specification words it: a leading plus sign,
then 2 to 15 ASCII digits whose first digit is 1..9, and nothing else —
no trailing newline, no non-ASCII digits.  Kept for comparison with the
program's recognizer `e164Match`. -/
def e164ClaimShape (s : String) : Bool :=
  match s.data with
  | '+' :: c :: rest =>
      ('1' ≤ c && c ≤ '9') && rest.all isDigitChar &&
        decide (1 ≤ rest.length) && decide (rest.length ≤ 14)
  | _ => false

/-- Python `v.endswith("Z")`. -/
def endsWithZ (s : String) : Bool := s.data.getLast? == some 'Z'

/-- Python `v.replace("Z", "+00:00")`: every occurrence of the character
`Z` is replaced by the five characters `+00:00`. -/
def replaceZ : List Char → List Char
  | [] => []
  | 'Z' :: rest => '+' :: '0' :: '0' :: ':' :: '0' :: '0' :: replaceZ rest
  | c :: rest => c :: replaceZ rest

/-- Numeric value of an ASCII digit character. -/
def digitVal (c : Char) : Nat := c.toNat - 48

/-- Parse exactly two ASCII digits, returning their value and the rest. -/
def parse2 : List Char → Option (Nat × List Char)
  | a :: b :: rest =>
      if isDigitChar a && isDigitChar b then
        some (10 * digitVal a + digitVal b, rest)
      else none
  | _ => none

/-- Parse exactly four ASCII digits, returning their value and the rest. -/
def parse4 : List Char → Option (Nat × List Char)
  | a :: b :: c :: d :: rest =>
      if isDigitChar a && isDigitChar b && isDigitChar c && isDigitChar d then
        some (1000 * digitVal a + 100 * digitVal b + 10 * digitVal c + digitVal d, rest)
      else none
  | _ => none

/-- Expect one specific character. -/
def expectChar (c : Char) : List Char → Option (List Char)
  | x :: rest => if x == c then some rest else none
  | [] => none

/-- Gregorian leap-year rule, as in Python's `datetime`. -/
def isLeap (y : Nat) : Bool := (y % 4 == 0 && y % 100 != 0) || (y % 400 == 0)

/-- Days in a month, as in Python's `datetime`. -/
def daysInMonth (y m : Nat) : Nat :=
  if m == 2 then (if isLeap y then 29 else 28)
  else if m == 4 || m == 6 || m == 9 || m == 11 then 30
  else 31

/-- Parse the date part `YYYY-MM-DD` with `datetime`'s range checks
(year 1..9999, month 1..12, day 1..days-in-month). -/
def parseDate (cs : List Char) : Option (List Char) := do
  let (y, cs) ← parse4 cs
  let cs ← expectChar '-' cs
  let (m, cs) ← parse2 cs
  let cs ← expectChar '-' cs
  let (d, cs) ← parse2 cs
  if 1 ≤ y && y ≤ 9999 && 1 ≤ m && m ≤ 12 && 1 ≤ d && d ≤ daysInMonth y m then
    some cs
  else none

/-- Parse a fractional-seconds field after the dot: exactly 3 or exactly
6 digits. -/
def parseFrac (cs : List Char) : Option (List Char) :=
  let ds := cs.takeWhile isDigitChar
  if ds.length == 3 || ds.length == 6 then some (cs.drop ds.length) else none

/-- Parse the time part `HH[:MM[:SS[.fff[fff]]]]` with `datetime`'s range
checks (hour 0..23, minute 0..59, second 0..59). -/
def parseTime (cs : List Char) : Option (List Char) := do
  let (h, cs) ← parse2 cs
  if h ≥ 24 then none else
  match cs with
  | ':' :: cs => do
      let (m, cs) ← parse2 (':' :: cs).tail
      if m ≥ 60 then none else
      match cs with
      | ':' :: cs2 => do
          let (s, cs3) ← parse2 cs2
          if s ≥ 60 then none else
          match cs3 with
          | '.' :: cs4 => parseFrac cs4
          | _ => some cs3
      | _ => some cs
  | _ => some cs

/-- Parse a trailing UTC-offset suffix `±HH:MM[:SS[.ffffff]]`; the empty
suffix (naive datetime) is accepted.  Range checks bound the offset below
24 hours, as Python's `timezone` requires. -/
def tzOk (cs : List Char) : Bool :=
  match cs with
  | [] => true
  | s :: rest =>
      (s == '+' || s == '-') &&
      (match parse2 rest with
       | none => false
       | some (h, r) =>
         match expectChar ':' r with
         | none => false
         | some r => match parse2 r with
           | none => false
           | some (m, r) =>
             (h ≤ 23 && m ≤ 59) &&
             (match r with
              | [] => true
              | ':' :: r2 =>
                (match parse2 r2 with
                 | none => false
                 | some (sec, r3) =>
                   sec ≤ 59 &&
                   (match r3 with
                    | [] => true
                    | '.' :: r4 =>
                      (r4.takeWhile isDigitChar).length == 6 &&
                        r4.drop 6 == []
                    | _ => false))
              | _ => false)
       )

/-- Model of Python's `datetime.fromisoformat` on its documented grammar
`YYYY-MM-DD[*HH[:MM[:SS[.fff[fff]]]][±HH:MM[:SS[.ffffff]]]]`: a valid
date, optionally followed by a single separator character (any
character), a valid time, and an optional explicit UTC offset.  Returns
`true` when the string parses as a valid date-time. -/
def fromisoformatOk (s : String) : Bool :=
  match parseDate s.data with
  | none => false
  | some rest =>
    match rest with
    | [] => true
    | _sep :: timecs =>
      match parseTime timecs with
      | none => false
      | some r => tzOk r

/-- The `validate_ts` pydantic validator (src/main.py lines 98-103):
the value must end with a literal `Z`, and after replacing `Z` with
`+00:00` it must parse with `datetime.fromisoformat`. -/
def validateTs (v : String) : Bool :=
  endsWithZ v && fromisoformatOk (String.mk (replaceZ v.data))

/-- The decoded JSON body of a webhook request, as the keyword arguments
handed to `WebhookMessage(**payload)`: each field is `none` when the key
is absent; `text` distinguishes an absent key from an explicit null. -/
structure RawPayload where
  message_id : Option String
  from_ : Option String
  to_ : Option String
  ts : Option String
  text : Option (Option String)

/-- A validated `WebhookMessage` (the pydantic model of src/main.py
lines 84-103). -/
structure WebhookMessage where
  message_id : String
  from_ : String
  to_ : String
  ts : String
  text : Option String
deriving DecidableEq

/-- The `max_length=4096` constraint on the optional `text` field: an
absent key or an explicit null passes; a string must have at most 4096
characters. -/
def textOk : Option (Option String) → Bool
  | none => true
  | some none => true
  | some (some t) => decide (t.length ≤ 4096)

/-- Construction of `WebhookMessage(**payload)`: all four required keys
must be present, `message_id` has `min_length=1`, `from`/`to` must match
`E164_REGEX`, `ts` must pass `validate_ts`, and `text` must satisfy its
length bound.  Any failure raises pydantic's `ValidationError`, modelled
as `none`. -/
def pydanticValidate (p : RawPayload) : Option WebhookMessage :=
  match p.message_id, p.from_, p.to_, p.ts with
  | some mid, some f, some t, some ts =>
    if decide (1 ≤ mid.length) && e164Match f && e164Match t &&
        validateTs ts && textOk p.text then
      some ⟨mid, f, t, ts, p.text.getD none⟩
    else none
  | _, _, _, _ => none

/-- Outcome of the request handler at the HTTP boundary: a returned
response, a raised `HTTPException` with its status, or an exception that
escaped the handler. -/
inductive HandlerResult where
  | response (status : Nat)
  | httpError (status : Nat)
  | unhandled
deriving DecidableEq, Repr

/-- The HTTP status the caller observes.  A raised `HTTPException`
surfaces with its own status; an exception that escapes the handler is
converted by the framework's generic handler (Starlette's
`ServerErrorMiddleware`, since FastAPI installs no handler for raw
`pydantic.ValidationError` or `json.JSONDecodeError`) into a 500
response, so the process keeps serving. -/
def surfacedStatus : HandlerResult → Nat
  | .response s => s
  | .httpError s => s
  | .unhandled => 500

/-- A status code in the client-error class 4xx. -/
def isClientError (s : Nat) : Bool := decide (400 ≤ s) && decide (s < 500)

/-- Python `str.isascii`: every code point is at most 127.
`hmac.compare_digest` on `str` arguments requires both to be
ASCII-only and raises `TypeError` otherwise. -/
def asciiOnly (s : String) : Bool := s.data.all (fun c => decide (c.toNat ≤ 127))

/-- Net effect of one webhook request: the resulting store, the key of
the `webhook_requests_total` counter that was incremented (`none` when
the request failed before reaching any counter bump), and the handler
result. -/
structure WebhookEffect where
  store : List Row
  counter : Option String
  result : HandlerResult
deriving DecidableEq

/-- The guarded `INSERT` of src/main.py lines 134-153: attempting to
insert a row whose `message_id` already exists violates the PRIMARY KEY,
raises `sqlite3.IntegrityError`, and is counted as `duplicate` with the
store unchanged; otherwise the row is appended with the server-assigned
`created_at` (`now`) and counted as `created`. -/
def insertMessage (st : List Row) (m : WebhookMessage) (now : String) :
    List Row × String :=
  if st.any (fun r => r.message_id == m.message_id) then (st, "duplicate")
  else (st ++ [⟨m.message_id, m.from_, m.to_, m.ts, m.text, now⟩], "created")

/-- The `/webhook` handler (src/main.py lines 107-153).  `hmacHex`
abstracts `body ↦ hmac.new(WEBHOOK_SECRET, body, sha256).hexdigest()`
(whose output is always an ASCII hex string); `jsonLoads` abstracts
`json.loads` composed with keyword extraction (`none` when the body is
not a JSON object).  A missing or falsy (empty) `X-Signature` header
raises `HTTPException(401)`.  Otherwise `hmac.compare_digest(signature,
expected)` runs: a non-ASCII header value makes it raise `TypeError`,
which escapes the handler with no counter incremented (`unhandled`,
surfaced as a 500); an ASCII header is compared by value
(constant-time), and a mismatch raises `HTTPException(401)` before any
parsing.  A parse or validation failure is counted and the exception
re-raised (`unhandled`).  Otherwise the message is inserted and a 200
`ok` response returned — also on duplicates. -/
def webhook (hmacHex : String → String) (jsonLoads : String → Option RawPayload)
    (now : String) (st : List Row) (body : String) (sig : Option String) :
    WebhookEffect :=
  match sig with
  | none => ⟨st, some "invalid_signature", .httpError 401⟩
  | some s =>
    if s.isEmpty then ⟨st, some "invalid_signature", .httpError 401⟩
    else if asciiOnly s then
      if s ≠ hmacHex body then ⟨st, some "invalid_signature", .httpError 401⟩
      else
        match jsonLoads body with
        | none => ⟨st, some "validation_error", .unhandled⟩
        | some p =>
          match pydanticValidate p with
          | none => ⟨st, some "validation_error", .unhandled⟩
          | some m =>
            let r := insertMessage st m now
            ⟨r.1, some r.2, .response 200⟩
    else ⟨st, none, .unhandled⟩

/-- ASCII lower-casing of one character, as applied by both sqlite's
`LOWER` and Python's `str.lower` on ASCII input. -/
def charLower (c : Char) : Char :=
  if 'A' ≤ c && c ≤ 'Z' then Char.ofNat (c.toNat + 32) else c

/-- ASCII lower-casing of a string. -/
def strLower (s : String) : String := String.mk (s.data.map charLower)

/-- Does `f` hold of some suffix of the list (the list itself
included)? -/
def anySuffix (f : List Char → Bool) : List Char → Bool
  | [] => f []
  | c :: cs => f (c :: cs) || anySuffix f cs

/-- SQL `LIKE` pattern matching: `%` matches any sequence (the rest of
the pattern may resume at any suffix), `_` matches exactly one
character, everything else matches itself up to ASCII case. -/
def likeMatch : List Char → List Char → Bool
  | [], s => s.isEmpty
  | '%' :: ps, s => anySuffix (fun suf => likeMatch ps suf) s
  | '_' :: ps, s =>
      match s with
      | [] => false
      | _ :: cs => likeMatch ps cs
  | p :: ps, s =>
      match s with
      | [] => false
      | c :: cs => (charLower p == charLower c) && likeMatch ps cs

/-- The `LIKE` pattern built by the handler: `f"%{q.lower()}%"`. -/
def likePattern (q : String) : List Char := '%' :: (strLower q).data ++ ['%']

/-- The condition `from_msisdn = ?`: `from_msisdn` is `NOT NULL`, so the
comparison never yields SQL NULL. -/
def condFrom (f : String) (r : Row) : Option Bool := some (r.from_msisdn == f)

/-- The condition `ts >= ?`: sqlite compares `TEXT` values bytewise
(BINARY collation), which on UTF-8 agrees with code-point lexicographic
order, i.e. with the `String` order. -/
def condSince (s : String) (r : Row) : Option Bool := some (decide (s ≤ r.ts))

/-- The condition `LOWER(text) LIKE ?`: when `text` is NULL the whole
condition evaluates to SQL NULL, so the row is not selected. -/
def condQ (q : String) (r : Row) : Option Bool :=
  match r.text with
  | none => none
  | some t => some (likeMatch (likePattern q) (strLower t).data)

/-- SQL three-valued `AND` over `Option Bool` (`none` = NULL). -/
def sqlAnd : Option Bool → Option Bool → Option Bool
  | some false, _ => some false
  | _, some false => some false
  | some true, b => b
  | b, some true => b
  | none, none => none

/-- A row passes the `WHERE` clause when the conjunction of the
conditions evaluates to SQL TRUE (an empty list means no `WHERE`). -/
def evalConds (cs : List (Row → Option Bool)) (r : Row) : Bool :=
  (cs.foldr (fun c acc => sqlAnd (c r) acc) (some true)) == some true

/-- The `if from_:` block of the `/messages` handler: the condition is
added only when the parameter is truthy, i.e. present and non-empty. -/
def condsFrom (fromQ : Option String) : List (Row → Option Bool) :=
  match fromQ with
  | some f => if f.isEmpty then [] else [condFrom f]
  | none => []

/-- The `if since:` block of the `/messages` handler. -/
def condsSince (sinceQ : Option String) : List (Row → Option Bool) :=
  match sinceQ with
  | some s => if s.isEmpty then [] else [condSince s]
  | none => []

/-- The `if q:` block of the `/messages` handler. -/
def condsQ (qQ : Option String) : List (Row → Option Bool) :=
  match qQ with
  | some q => if q.isEmpty then [] else [condQ q]
  | none => []

/-- The condition list built by the `/messages` handler (src/main.py
lines 166-181). -/
def conds (fromQ sinceQ qQ : Option String) : List (Row → Option Bool) :=
  condsFrom fromQ ++ condsSince sinceQ ++ condsQ qQ

/-- The `ORDER BY ts ASC, message_id ASC` order on rows. -/
def rowLE (a b : Row) : Prop :=
  a.ts < b.ts ∨ (a.ts = b.ts ∧ a.message_id ≤ b.message_id)

instance : DecidableRel rowLE := fun a b => by unfold rowLE; infer_instance

instance : IsTotal Row rowLE := by
  constructor
  intro a b
  rcases lt_trichotomy a.ts b.ts with h | h | h
  · exact Or.inl (Or.inl h)
  · rcases le_total a.message_id b.message_id with h2 | h2
    · exact Or.inl (Or.inr ⟨h, h2⟩)
    · exact Or.inr (Or.inr ⟨h.symm, h2⟩)
  · exact Or.inr (Or.inl h)

instance : IsTrans Row rowLE := by
  constructor
  intro a b c hab hbc
  rcases hab with h1 | ⟨e1, l1⟩
  · rcases hbc with h2 | ⟨e2, _⟩
    · exact Or.inl (h1.trans h2)
    · exact Or.inl (e2 ▸ h1)
  · rcases hbc with h2 | ⟨e2, l2⟩
    · exact Or.inl (e1 ▸ h2)
    · exact Or.inr ⟨e1.trans e2, l1.trans l2⟩

/-- The strict version of `rowLE`: distinct `(ts, message_id)` keys in
ascending order. -/
def rowLT (a b : Row) : Prop :=
  a.ts < b.ts ∨ (a.ts = b.ts ∧ a.message_id < b.message_id)

/-- Result shape of the `/messages` handler: the page, the total count
of rows matching the filters, and the echoed `limit`/`offset`. -/
structure QueryResult where
  data : List Row
  total : Nat
  limit : Nat
  offset : Nat
deriving DecidableEq

/-- The `/messages` handler (src/main.py lines 157-211): build the
`WHERE` conditions from the truthy filters, take `COUNT(*)` under the
same conditions, and return the filtered rows ordered by
`(ts, message_id)` ascending with `LIMIT ? OFFSET ?` applied.  FastAPI
validates `1 ≤ limit ≤ 100` and `0 ≤ offset` before the handler runs. -/
def messages (st : List Row) (limit offset : Nat)
    (fromQ sinceQ qQ : Option String) : QueryResult :=
  let cs := conds fromQ sinceQ qQ
  let filtered := st.filter (evalConds cs)
  let sorted := List.insertionSort rowLE filtered
  { data := (sorted.drop offset).take limit
    total := filtered.length
    limit := limit
    offset := offset }

/-- Number of stored rows whose sender is `s`
(`SELECT COUNT(*) ... GROUP BY from_msisdn` for the group of `s`). -/
def countSender (st : List Row) (s : String) : Nat :=
  st.countP (fun r => r.from_msisdn == s)

/-- The distinct senders of the store (the `GROUP BY from_msisdn`
groups). -/
def sendersList (st : List Row) : List String :=
  (st.map (fun r => r.from_msisdn)).dedup

/-- One `(sender, count)` pair per distinct sender. -/
def senderCounts (st : List Row) : List (String × Nat) :=
  (sendersList st).map (fun s => (s, countSender st s))

/-- The `ORDER BY count DESC` order on `(sender, count)` pairs. -/
def countGE (a b : String × Nat) : Prop := b.2 ≤ a.2

instance : DecidableRel countGE := fun a b => by unfold countGE; infer_instance

instance : IsTotal (String × Nat) countGE :=
  ⟨fun a b => (le_total b.2 a.2).imp id id⟩

instance : IsTrans (String × Nat) countGE :=
  ⟨fun _ _ _ hab hbc => le_trans hbc hab⟩

/-- The sender ranking of `/stats`: `(sender, count)` pairs ordered by
count descending (ties resolved deterministically by the sort), then
`LIMIT 10`. -/
def ranking (st : List Row) : List (String × Nat) :=
  (List.insertionSort countGE (senderCounts st)).take 10

/-- `SELECT MIN(ts) FROM messages` (`ts` is `NOT NULL`): the least `ts`
under the string order, `none` on an empty store. -/
def minTs (st : List Row) : Option String :=
  match st.map (fun r => r.ts) with
  | [] => none
  | t :: rest => some (rest.foldl min t)

/-- `SELECT MAX(ts) FROM messages`: the greatest `ts` under the string
order, `none` on an empty store. -/
def maxTs (st : List Row) : Option String :=
  match st.map (fun r => r.ts) with
  | [] => none
  | t :: rest => some (rest.foldl max t)

/-- Result shape of the `/stats` handler. -/
structure StatsResult where
  total_messages : Nat
  senders_count : Nat
  messages_per_sender : List (String × Nat)
  first_message_ts : Option String
  last_message_ts : Option String
deriving DecidableEq

/-- The `/stats` handler (src/main.py lines 215-249): on an empty store
an explicit zero summary; otherwise the row count, the top-10 sender
ranking, `senders_count = len(senders)` over that ranking, and the
min/max `ts`. -/
def stats (st : List Row) : StatsResult :=
  if st.length == 0 then ⟨0, 0, [], none, none⟩
  else ⟨st.length, (ranking st).length, ranking st, minTs st, maxTs st⟩

/-- A concrete stored row used to instantiate the universally quantified
theorems below. -/
def demoRow : Row :=
  ⟨"m1", "+14155552671", "+14155552672", "2024-01-01T00:00:00Z", some "hi",
    "2024-01-02T00:00:00Z"⟩

/-- A second concrete stored row with the same `ts` as `demoRow`. -/
def demoRow2 : Row :=
  ⟨"m2", "+15555550000", "+14155552672", "2024-01-01T00:00:00Z",
    some "Hello World", "2024-01-02T00:00:01Z"⟩

/-- A concrete two-row store. -/
def demoStore : List Row := [demoRow, demoRow2]

/-- A validated message carrying `demoRow`'s `message_id` but different
`from`/`to`/`ts`/`text`: a retried delivery with changed content. -/
def demoMsg : WebhookMessage :=
  ⟨"m1", "+19998887777", "+12223334444", "2025-05-05T00:00:00Z", none⟩

section Lemmas

/-- A successfully validated message satisfies all the field-level
constraints of the pydantic model. -/
theorem pydanticValidate_fields {p : RawPayload} {m : WebhookMessage}
    (h : pydanticValidate p = some m) :
    1 ≤ m.message_id.length ∧ e164Match m.from_ = true ∧
      e164Match m.to_ = true ∧ validateTs m.ts = true := by
  unfold pydanticValidate at h
  split at h
  · split at h
    · rename_i hcond
      injection h with h
      subst h
      simp only [Bool.and_eq_true, decide_eq_true_eq] at hcond
      exact ⟨hcond.1.1.1.1, hcond.1.1.1.2, hcond.1.1.2, hcond.1.2⟩
    · exact absurd h (by simp)
  · exact absurd h (by simp)

/-- A webhook request either leaves the store unchanged or appends a
single row built from a successfully validated message, stamped with the
server time `now`. -/
theorem webhook_store_eq (hmacHex : String → String)
    (jsonLoads : String → Option RawPayload) (now : String) (st : List Row)
    (body : String) (sig : Option String) :
    (webhook hmacHex jsonLoads now st body sig).store = st ∨
    ∃ p m, jsonLoads body = some p ∧ pydanticValidate p = some m ∧
      (webhook hmacHex jsonLoads now st body sig).store
        = st ++ [⟨m.message_id, m.from_, m.to_, m.ts, m.text, now⟩] := by
  unfold webhook
  rcases sig with _ | s
  · exact Or.inl rfl
  · by_cases he : s.isEmpty
    · exact Or.inl (by simp [he])
    · by_cases ha : asciiOnly s
      · by_cases hs : s = hmacHex body
        · subst hs
          rcases hj : jsonLoads body with _ | p
          · exact Or.inl (by simp [he, ha, hj])
          · rcases hv : pydanticValidate p with _ | m
            · exact Or.inl (by simp [he, ha, hj, hv])
            · by_cases hdup :
                (st.any fun r => r.message_id == m.message_id) = true
              · exact Or.inl (by simp [he, ha, hj, hv, insertMessage, hdup])
              · exact Or.inr ⟨p, m, rfl, hv,
                  by simp [he, ha, hj, hv, insertMessage, hdup]⟩
        · exact Or.inl (by simp [he, ha, hs])
      · exact Or.inl (by simp [he, ha])

/-- The left fold of `min` yields either its seed or a list element. -/
theorem foldl_min_mem {α : Type} [LinearOrder α] (l : List α) (a : α) :
    l.foldl min a = a ∨ l.foldl min a ∈ l := by
  induction l generalizing a with
  | nil => exact Or.inl rfl
  | cons x xs ih =>
    rw [List.foldl_cons]
    rcases ih (min a x) with h | h
    · rcases le_total a x with hax | hxa
      · exact Or.inl (by rw [h, min_eq_left hax])
      · exact Or.inr (by rw [h, min_eq_right hxa]; exact List.mem_cons_self x xs)
    · exact Or.inr (List.mem_cons_of_mem x h)

/-- The left fold of `min` is a lower bound for its seed and for every
list element. -/
theorem foldl_min_le {α : Type} [LinearOrder α] (l : List α) (a : α) :
    l.foldl min a ≤ a ∧ ∀ x ∈ l, l.foldl min a ≤ x := by
  induction l generalizing a with
  | nil => exact ⟨le_refl a, by simp⟩
  | cons y ys ih =>
    obtain ⟨h1, h2⟩ := ih (min a y)
    rw [List.foldl_cons]
    refine ⟨le_trans h1 (min_le_left a y), ?_⟩
    intro x hx
    rcases List.mem_cons.mp hx with h | h
    · rw [h]; exact le_trans h1 (min_le_right a y)
    · exact h2 x h

/-- The left fold of `max` yields either its seed or a list element. -/
theorem foldl_max_mem {α : Type} [LinearOrder α] (l : List α) (a : α) :
    l.foldl max a = a ∨ l.foldl max a ∈ l := by
  induction l generalizing a with
  | nil => exact Or.inl rfl
  | cons x xs ih =>
    rw [List.foldl_cons]
    rcases ih (max a x) with h | h
    · rcases le_total a x with hax | hxa
      · exact Or.inr (by rw [h, max_eq_right hax]; exact List.mem_cons_self x xs)
      · exact Or.inl (by rw [h, max_eq_left hxa])
    · exact Or.inr (List.mem_cons_of_mem x h)

/-- The left fold of `max` is an upper bound for its seed and for every
list element. -/
theorem foldl_max_le {α : Type} [LinearOrder α] (l : List α) (a : α) :
    a ≤ l.foldl max a ∧ ∀ x ∈ l, x ≤ l.foldl max a := by
  induction l generalizing a with
  | nil => exact ⟨le_refl a, by simp⟩
  | cons y ys ih =>
    obtain ⟨h1, h2⟩ := ih (max a y)
    rw [List.foldl_cons]
    refine ⟨le_trans (le_max_left a y) h1, ?_⟩
    intro x hx
    rcases List.mem_cons.mp hx with h | h
    · rw [h]; exact le_trans (le_max_right a y) h1
    · exact h2 x h

/-- Concatenating the first `n` pages of size `k` yields the first
`n * k` elements. -/
theorem flatten_chunks_take {α : Type} (L : List α) (k : Nat) (n : Nat) :
    ((List.range n).map (fun i => (L.drop (i * k)).take k)).flatten
      = L.take (n * k) := by
  induction n with
  | zero => simp
  | succ n ih =>
    rw [List.range_succ, List.map_append, List.flatten_append, ih,
      Nat.succ_mul, List.take_add]
    simp

/-- An ASCII digit 1..9 is a Unicode decimal digit. -/
theorem pyDigit_of_ascii19 {c : Char} (h1 : '1' ≤ c) (h2 : c ≤ '9') :
    pyDigit c = true := by
  have hn1 : 49 ≤ c.toNat := by
    rw [Char.le_def] at h1
    exact h1
  have hn2 : c.toNat ≤ 57 := by
    rw [Char.le_def] at h2
    exact h2
  unfold pyDigit
  refine List.any_eq_true.mpr ⟨(48, 57), by decide, ?_⟩
  simp only [Bool.and_eq_true, decide_eq_true_eq]
  exact ⟨by omega, by omega⟩

/-- A Unicode decimal digit is not a newline. -/
theorem pyDigit_ne_newline {c : Char} (h : pyDigit c = true) : c ≠ '\n' := by
  intro he
  rw [he] at h
  exact absurd h (by decide)

/-- Stripping the final newline is the identity when the last character
is not a newline. -/
theorem stripFinalNewline_of_ne (cs : List Char)
    (h : cs.getLast? ≠ some '\n') : stripFinalNewline cs = cs := by
  unfold stripFinalNewline
  rw [if_neg (by simpa using h)]

/-- Stripping the final newline removes exactly one trailing newline. -/
theorem stripFinalNewline_concat (cs : List Char) :
    stripFinalNewline (cs ++ ['\n']) = cs := by
  unfold stripFinalNewline
  rw [List.getLast?_concat]
  simp [List.dropLast_concat]

/-- Characterization of the anchor-free regex body: a plus sign, then
2 to 15 Unicode digits whose first is the ASCII 1..9, and nothing
else. -/
theorem e164Core_iff (cs : List Char) :
    e164Core cs = true ↔
      ∃ ds : List Char, cs = '+' :: ds ∧ (∀ d ∈ ds, pyDigit d = true) ∧
        2 ≤ ds.length ∧ ds.length ≤ 15 ∧
        ∃ c tl, ds = c :: tl ∧ '1' ≤ c ∧ c ≤ '9' := by
  constructor
  · intro h
    rcases cs with _ | ⟨a, _ | ⟨c, rest⟩⟩
    · exact absurd h (by simp [e164Core])
    · exact absurd h (by simp [e164Core])
    · simp only [e164Core, Bool.and_eq_true, decide_eq_true_eq,
        List.all_eq_true, beq_iff_eq] at h
      obtain ⟨⟨⟨⟨ha, h1, h2⟩, hb⟩, h4⟩, h5⟩ := h
      subst ha
      refine ⟨c :: rest, rfl, ?_, ?_, ?_, c, rest, rfl, h1, h2⟩
      · intro d hd
        rcases List.mem_cons.mp hd with hdc | hdr
        · subst hdc
          exact pyDigit_of_ascii19 h1 h2
        · exact hb d hdr
      · simp only [List.length_cons]; omega
      · simp only [List.length_cons]; omega
  · rintro ⟨ds, heq, hdig, hlen2, hlen15, c, tl, rfl, h1, h2⟩
    subst heq
    simp only [List.length_cons] at hlen2 hlen15
    simp only [e164Core, Bool.and_eq_true, decide_eq_true_eq,
      List.all_eq_true, beq_iff_eq]
    refine ⟨⟨⟨⟨trivial, h1, h2⟩, ?_⟩, by omega⟩, by omega⟩
    exact fun d hd => hdig d (List.mem_cons_of_mem c hd)

end Lemmas

/-- C1.  Idempotent ingestion: when some stored row already carries the
incoming `message_id`, the insert attempt (the PRIMARY-KEY-guarded
`INSERT` of the webhook handler) returns the store exactly unchanged —
every stored row, `created_at` included, is untouched and no second row
appears — and is counted under the `duplicate` outcome, which differs
from the `created` outcome of a new insert.  The incoming message may
have arbitrary `from`/`to`/`ts`/`text`. -/
theorem claim_C1_idempotent_ingestion (st : List Row) (m : WebhookMessage)
    (now : String) (r : Row) (hr : r ∈ st)
    (hid : r.message_id = m.message_id) :
    insertMessage st m now = (st, "duplicate") ∧
      ("duplicate" : String) ≠ "created" := by
  have h : (st.any fun x => x.message_id == m.message_id) = true := by
    simp only [List.any_eq_true]
    exact ⟨r, hr, by simp [hid]⟩
  exact ⟨by simp [insertMessage, h], by decide⟩

/-- C1 witness: inserting a message with `demoRow`'s id but different
content into the demo store is a duplicate no-op. -/
theorem claim_C1_witness :
    insertMessage demoStore demoMsg "2026-01-01T00:00:00Z"
        = (demoStore, "duplicate") ∧ ("duplicate" : String) ≠ "created" :=
  claim_C1_idempotent_ingestion demoStore demoMsg "2026-01-01T00:00:00Z"
    demoRow (by simp [demoStore]) rfl

/-- C3 counterexample.  The claim says every presented-but-mismatched
signature — including wrong encoding — fails with `Unauthenticated`
(401, counted `invalid_signature`).  It does not: `hmac.compare_digest`
on `str` arguments is documented ASCII-only and raises `TypeError` on a
non-ASCII value, and Starlette delivers latin-1-decoded header bytes, so
a non-ASCII `X-Signature` makes the handler die with an unhandled
exception: status 500, no counter incremented, not a 401.  The store is
still untouched. -/
theorem claim_C3_counterexample :
    (webhook (fun _ => "a2c5e9") (fun _ => none) "2026-01-01T00:00:00Z"
        [] "body" (some "café")).store = [] ∧
    (webhook (fun _ => "a2c5e9") (fun _ => none) "2026-01-01T00:00:00Z"
        [] "body" (some "café")).counter = none ∧
    (webhook (fun _ => "a2c5e9") (fun _ => none) "2026-01-01T00:00:00Z"
        [] "body" (some "café")).result = .unhandled ∧
    surfacedStatus (webhook (fun _ => "a2c5e9") (fun _ => none)
        "2026-01-01T00:00:00Z" [] "body" (some "café")).result = 500 ∧
    (webhook (fun _ => "a2c5e9") (fun _ => none) "2026-01-01T00:00:00Z"
        [] "body" (some "café")).result ≠ HandlerResult.httpError 401 := by
  refine ⟨rfl, rfl, rfl, rfl, by decide⟩

/-- C3 (amended).  A webhook request whose signature header is missing,
or present as an ASCII string different from the HMAC-SHA256 hex digest
of the raw body under the shared secret (any differing ASCII string:
wrong length, wrong lowercase/uppercase or non-hex encoding), is
rejected with 401 (`Unauthenticated`), counted as `invalid_signature`,
and leaves the store untouched; a signature containing a non-ASCII
character instead makes `hmac.compare_digest` raise `TypeError`, which
escapes the handler as a 500 with no counter incremented and the store
equally untouched.  Both conclusions hold for every `jsonLoads`, i.e.
independently of the body's content: no parsing or validation is
attempted. -/
theorem claim_C3_unauthenticated (hmacHex : String → String)
    (jsonLoads : String → Option RawPayload) (now : String) (st : List Row)
    (body : String) (sig : Option String) :
    ((sig = none ∨ ∃ s, sig = some s ∧ asciiOnly s = true ∧ s ≠ hmacHex body) →
      webhook hmacHex jsonLoads now st body sig
        = ⟨st, some "invalid_signature", .httpError 401⟩) ∧
    (∀ s, sig = some s → asciiOnly s = false →
      webhook hmacHex jsonLoads now st body sig = ⟨st, none, .unhandled⟩ ∧
      surfacedStatus (webhook hmacHex jsonLoads now st body sig).result
        = 500) := by
  constructor
  · rintro (h | ⟨s, hs, ha, hne⟩)
    · subst h; rfl
    · subst hs
      unfold webhook
      by_cases he : s.isEmpty
      · simp [he]
      · simp [he, ha, hne]
  · rintro s rfl hna
    have hene : s.isEmpty = false := by
      cases hse : s.isEmpty
      · rfl
      · have hs0 : s = "" := by rwa [String.isEmpty_iff] at hse
        subst hs0
        exact absurd hna (by decide)
    have heff : webhook hmacHex jsonLoads now st body (some s)
        = ⟨st, none, .unhandled⟩ := by
      unfold webhook
      simp [hene, hna]
    exact ⟨heff, by rw [heff]; rfl⟩

/-- C3 witness: a wrong ASCII signature is rejected 401 and counted,
while a non-ASCII signature dies as an unhandled `TypeError`; both leave
the demo store unchanged. -/
theorem claim_C3_witness :
    webhook (fun _ => "a2c5e9") (fun _ => none) "2026-01-01T00:00:00Z"
        demoStore "body" (some "deadbeef")
      = ⟨demoStore, some "invalid_signature", .httpError 401⟩ ∧
    webhook (fun _ => "a2c5e9") (fun _ => none) "2026-01-01T00:00:00Z"
        demoStore "body" (some "café")
      = ⟨demoStore, none, .unhandled⟩ :=
  ⟨(claim_C3_unauthenticated (fun _ => "a2c5e9") (fun _ => none)
      "2026-01-01T00:00:00Z" demoStore "body" (some "deadbeef")).1
    (Or.inr ⟨"deadbeef", rfl, by decide, by decide⟩),
   ((claim_C3_unauthenticated (fun _ => "a2c5e9") (fun _ => none)
      "2026-01-01T00:00:00Z" demoStore "body" (some "café")).2
    "café" rfl (by decide)).1⟩

/-- C2 counterexample.  The claim says an authenticated but invalid body
is surfaced to the caller as a client error.  It is not: the handler
counts `validation_error` and re-raises the exception
(`except Exception: ...; raise`), FastAPI installs no handler for raw
`pydantic.ValidationError`/`json.JSONDecodeError`, so the framework's
generic handler answers 500 — a server error, not a 4xx client error.
Concretely: a correctly signed body that fails JSON parsing yields
status 500. -/
theorem claim_C2_counterexample :
    (webhook (fun _ => "sig") (fun _ => none) "2026-01-01T00:00:00Z"
        [] "notjson" (some "sig")).store = [] ∧
    (webhook (fun _ => "sig") (fun _ => none) "2026-01-01T00:00:00Z"
        [] "notjson" (some "sig")).counter = some "validation_error" ∧
    surfacedStatus (webhook (fun _ => "sig") (fun _ => none)
        "2026-01-01T00:00:00Z" [] "notjson" (some "sig")).result = 500 ∧
    isClientError (surfacedStatus (webhook (fun _ => "sig") (fun _ => none)
        "2026-01-01T00:00:00Z" [] "notjson" (some "sig")).result) = false := by
  decide

/-- C2 (amended).  For every authenticated webhook request whose body is
structurally or semantically invalid (JSON parse failure or pydantic
validation failure), the operation is counted as the `validation_error`
outcome, stores nothing, and does not crash the process — but the
exception is re-raised out of the handler and surfaced by the framework
as a 500 internal server error, not as a 4xx client error. -/
theorem claim_C2_validation_error (hmacHex : String → String)
    (jsonLoads : String → Option RawPayload) (now : String) (st : List Row)
    (body : String) (s : String) (hsig : s = hmacHex body)
    (hne : ¬ s.isEmpty = true) (hasc : asciiOnly (hmacHex body) = true)
    (hbad : jsonLoads body = none ∨
      ∃ p, jsonLoads body = some p ∧ pydanticValidate p = none) :
    webhook hmacHex jsonLoads now st body (some s)
        = ⟨st, some "validation_error", .unhandled⟩ ∧
    surfacedStatus (webhook hmacHex jsonLoads now st body (some s)).result
        = 500 ∧
    isClientError (surfacedStatus
        (webhook hmacHex jsonLoads now st body (some s)).result) = false := by
  have heff : webhook hmacHex jsonLoads now st body (some s)
      = ⟨st, some "validation_error", .unhandled⟩ := by
    unfold webhook
    subst hsig
    rcases hbad with h | ⟨p, hp, hv⟩
    · simp [hne, hasc, h]
    · simp [hne, hasc, hp, hv]
  refine ⟨heff, ?_, ?_⟩ <;> rw [heff] <;> rfl

/-- C2 witness: a signed body whose JSON object fails validation (empty
payload) is counted as `validation_error`, stores nothing, and surfaces
as a 500. -/
theorem claim_C2_witness :
    webhook (fun _ => "sig") (fun _ => some ⟨none, none, none, none, none⟩)
        "2026-01-01T00:00:00Z" demoStore "x" (some "sig")
        = ⟨demoStore, some "validation_error", .unhandled⟩ ∧
    surfacedStatus (webhook (fun _ => "sig")
        (fun _ => some ⟨none, none, none, none, none⟩)
        "2026-01-01T00:00:00Z" demoStore "x" (some "sig")).result = 500 ∧
    isClientError (surfacedStatus (webhook (fun _ => "sig")
        (fun _ => some ⟨none, none, none, none, none⟩)
        "2026-01-01T00:00:00Z" demoStore "x" (some "sig")).result) = false :=
  claim_C2_validation_error (fun _ => "sig")
    (fun _ => some ⟨none, none, none, none, none⟩) "2026-01-01T00:00:00Z"
    demoStore "x" "sig" rfl (by decide) (by decide)
    (Or.inr ⟨⟨none, none, none, none, none⟩, rfl, rfl⟩)

/-- C10.  Supplying an empty string for `from`, `since` or `q` behaves
exactly as omitting the filter: the handler guards each condition with
Python truthiness (`if from_:`, `if since:`, `if q:`), so an empty
string contributes no condition and the whole query result is equal. -/
theorem claim_C10_empty_filters :
    (∀ (st : List Row) (limit offset : Nat) (sinceQ qQ : Option String),
      messages st limit offset (some "") sinceQ qQ
        = messages st limit offset none sinceQ qQ) ∧
    (∀ (st : List Row) (limit offset : Nat) (fromQ qQ : Option String),
      messages st limit offset fromQ (some "") qQ
        = messages st limit offset fromQ none qQ) ∧
    (∀ (st : List Row) (limit offset : Nat) (fromQ sinceQ : Option String),
      messages st limit offset fromQ sinceQ (some "")
        = messages st limit offset fromQ sinceQ none) :=
  ⟨fun _ _ _ _ _ => rfl, fun _ _ _ _ _ => rfl, fun _ _ _ _ _ => rfl⟩

/-- C4 counterexample.  The claim reads `E164_REGEX` as accepting
exactly a plus sign followed by 2 to 15 digits with first digit 1..9 —
the shape `e164ClaimShape`.  Python's `re` disagrees: `$` also matches
just before a trailing newline and `\d` matches any Unicode decimal
digit, so the validator accepts (and the program stores)
`"+14155552671\n"` and `"+1٥"` (with the Arabic-Indic digit five),
neither of which has the claimed shape. -/
theorem claim_C4_counterexample :
    e164Match "+14155552671\n" = true ∧
    e164ClaimShape "+14155552671\n" = false ∧
    e164Match "+1٥" = true ∧
    e164ClaimShape "+1٥" = false := by
  decide

/-- C4 (amended).  E.164 validation with Python `re` semantics: a string
passes the `from`/`to` validator exactly when it is a plus sign followed
by 2 to 15 Unicode decimal digits whose first digit is the ASCII 1..9,
optionally followed by one trailing newline; the spec's four example
inputs still behave as stated; and the webhook write path keeps every
stored row's `from_msisdn` and `to_msisdn` inside this relaxed pattern
(validation happens before persistence). -/
theorem claim_C4_e164 :
    (∀ v : String, e164Match v = true ↔
      ∃ ds : List Char,
        (v.data = '+' :: ds ∨ v.data = '+' :: ds ++ ['\n']) ∧
        (∀ d ∈ ds, pyDigit d = true) ∧ 2 ≤ ds.length ∧ ds.length ≤ 15 ∧
        ∃ c tl, ds = c :: tl ∧ '1' ≤ c ∧ c ≤ '9') ∧
    e164Match "1234567890" = false ∧
    e164Match "+0123456789" = false ∧
    e164Match "+123456789012345678" = false ∧
    e164Match "+14155552671" = true ∧
    (∀ (hmacHex : String → String) (jsonLoads : String → Option RawPayload)
        (now : String) (st : List Row) (body : String) (sig : Option String),
      (∀ r ∈ st, e164Match r.from_msisdn = true ∧ e164Match r.to_msisdn = true) →
      ∀ r ∈ (webhook hmacHex jsonLoads now st body sig).store,
        e164Match r.from_msisdn = true ∧ e164Match r.to_msisdn = true) := by
  refine ⟨fun v => ?_, by decide, by decide, by decide, by decide, ?_⟩
  · constructor
    · intro h
      unfold e164Match at h
      obtain ⟨ds, hstrip, hdig, hlen2, hlen15, c, tl, hds, h1, h2⟩ :=
        (e164Core_iff _).mp h
      refine ⟨ds, ?_, hdig, hlen2, hlen15, c, tl, hds, h1, h2⟩
      by_cases hnl : v.data.getLast? = some '\n'
      · right
        have hne : v.data ≠ [] := by
          intro he
          rw [he] at hnl
          simp at hnl
        have hstrip2 : v.data.dropLast = '+' :: ds := by
          rw [← hstrip]
          unfold stripFinalNewline
          rw [if_pos (by simpa using hnl)]
        have hg : v.data.getLast hne = '\n' := by
          have hh := List.getLast?_eq_getLast v.data hne
          rw [hh] at hnl
          exact Option.some.inj hnl
        have hlast := List.dropLast_append_getLast hne
        rw [← hlast, hstrip2, hg]
      · left
        rw [← hstrip, stripFinalNewline_of_ne _ hnl]
    · rintro ⟨ds, hor, hdig, hlen2, hlen15, c, tl, hds, h1, h2⟩
      unfold e164Match
      rcases hor with hcase | hcase
      · rw [hcase, stripFinalNewline_of_ne]
        · exact (e164Core_iff _).mpr
            ⟨ds, rfl, hdig, hlen2, hlen15, c, tl, hds, h1, h2⟩
        · subst hds
          rw [List.getLast?_cons_cons]
          have hne2 : (c :: tl : List Char) ≠ [] := by simp
          rw [List.getLast?_eq_getLast _ hne2]
          intro hcon
          exact pyDigit_ne_newline (hdig _ (List.getLast_mem hne2))
            (Option.some.inj hcon)
      · rw [hcase]
        show e164Core (stripFinalNewline (('+' :: ds) ++ ['\n'])) = true
        rw [stripFinalNewline_concat]
        exact (e164Core_iff _).mpr
          ⟨ds, rfl, hdig, hlen2, hlen15, c, tl, hds, h1, h2⟩
  · intro hmacHex jsonLoads now st body sig hinv r hr
    rcases webhook_store_eq hmacHex jsonLoads now st body sig with
      heq | ⟨p, m, _, hv, heq⟩
    · exact hinv r (heq ▸ hr)
    · rw [heq] at hr
      rcases List.mem_append.mp hr with h | h
      · exact hinv r h
      · obtain ⟨_, hf, ht, _⟩ := pydanticValidate_fields hv
        rcases List.mem_singleton.mp h with rfl
        exact ⟨hf, ht⟩

/-- C4 witness: the demo store satisfies the E.164 invariant, and any
webhook request (here an unauthenticated one) preserves it. -/
theorem claim_C4_witness :
    ∀ r ∈ (webhook (fun _ => "sig") (fun _ => none) "2026-01-01T00:00:00Z"
        demoStore "b" none).store,
      e164Match r.from_msisdn = true ∧ e164Match r.to_msisdn = true :=
  claim_C4_e164.2.2.2.2.2 (fun _ => "sig") (fun _ => none)
    "2026-01-01T00:00:00Z" demoStore "b" none (by decide)

/-- C5.  Timestamp validation: `ts` is accepted exactly when it ends in
a literal `Z` and, with every `Z` normalized to the explicit offset
`+00:00`, parses as a valid ISO-8601 date-time; in particular the
offset-free `2024-01-01T00:00:00` is rejected and
`2024-01-01T00:00:00Z` is accepted. -/
theorem claim_C5_ts :
    validateTs "2024-01-01T00:00:00" = false ∧
    validateTs "2024-01-01T00:00:00Z" = true ∧
    (∀ v : String, validateTs v = true ↔
      (endsWithZ v = true ∧
        fromisoformatOk (String.mk (replaceZ v.data)) = true)) := by
  refine ⟨by decide, by decide, fun v => ?_⟩
  simp [validateTs, Bool.and_eq_true]

/-- C5 witness: the acceptance criterion instantiated at a concrete
date-only timestamp string. -/
theorem claim_C5_witness :
    validateTs "2024-06-30" = true ↔
      (endsWithZ "2024-06-30" = true ∧
        fromisoformatOk (String.mk (replaceZ "2024-06-30".data)) = true) :=
  claim_C5_ts.2.2 "2024-06-30"

/-- C6.  Query ordering: for every store and every filter combination,
the returned page is sorted ascending by `(ts, message_id)`; under the
PRIMARY KEY uniqueness of `message_id` the order is strict (a total
order), so rows with equal `ts` appear in strictly ascending
`message_id` order.  The query is a pure function of the store, so
repeated queries with no intervening writes return the same sequence. -/
theorem claim_C6_ordering (st : List Row) (limit offset : Nat)
    (fromQ sinceQ qQ : Option String)
    (hnd : (st.map Row.message_id).Nodup) :
    List.Sorted rowLE (messages st limit offset fromQ sinceQ qQ).data ∧
    List.Pairwise rowLT (messages st limit offset fromQ sinceQ qQ).data := by
  have hdata : (messages st limit offset fromQ sinceQ qQ).data
      = ((List.insertionSort rowLE
          (st.filter (evalConds (conds fromQ sinceQ qQ)))).drop offset).take
            limit := rfl
  have hsub : (((List.insertionSort rowLE
      (st.filter (evalConds (conds fromQ sinceQ qQ)))).drop offset).take
        limit).Sublist
      (List.insertionSort rowLE (st.filter (evalConds (conds fromQ sinceQ qQ)))) :=
    (List.take_sublist _ _).trans (List.drop_sublist _ _)
  have hsorted := List.Pairwise.sublist hsub
    (List.sorted_insertionSort rowLE (st.filter (evalConds (conds fromQ sinceQ qQ))))
  have hndF : ((st.filter (evalConds (conds fromQ sinceQ qQ))).map
      Row.message_id).Nodup :=
    ((List.filter_sublist st).map Row.message_id).nodup hnd
  have hndS := (((List.perm_insertionSort rowLE
    (st.filter (evalConds (conds fromQ sinceQ qQ)))).map
      Row.message_id).symm).nodup hndF
  have hndD := (hsub.map Row.message_id).nodup hndS
  have hneD : List.Pairwise (fun a b : Row => a.message_id ≠ b.message_id)
      (((List.insertionSort rowLE
        (st.filter (evalConds (conds fromQ sinceQ qQ)))).drop offset).take
          limit) := List.pairwise_map.mp hndD
  rw [hdata]
  refine ⟨hsorted, (hsorted.and hneD).imp ?_⟩
  rintro a b ⟨hle, hne⟩
  rcases hle with h | ⟨he, hl⟩
  · exact Or.inl h
  · exact Or.inr ⟨he, lt_of_le_of_ne hl hne⟩

/-- C6 witness: the ordering theorem applied to the demo store (whose
two rows share `ts` and are returned in `message_id` order). -/
theorem claim_C6_witness :
    List.Sorted rowLE (messages demoStore 50 0 none none none).data ∧
    List.Pairwise rowLT (messages demoStore 50 0 none none none).data :=
  claim_C6_ordering demoStore 50 0 none none none (by decide)

/-- C7.  Pagination total invariance: the reported `total` equals the
number of rows matching the filters for every `limit`/`offset` (it does
not depend on them); the result echoes the effective `limit` and
`offset`; the ordered result set is a permutation of the filtered rows
(no duplicates or omissions); and concatenating the pages at
non-overlapping offsets `0, k, 2k, ...` covering `total` reconstructs
the whole ordered filtered set. -/
theorem claim_C7_pagination (st : List Row) (fromQ sinceQ qQ : Option String) :
    (∀ limit offset : Nat,
      (messages st limit offset fromQ sinceQ qQ).total
          = (st.filter (evalConds (conds fromQ sinceQ qQ))).length ∧
        (messages st limit offset fromQ sinceQ qQ).limit = limit ∧
        (messages st limit offset fromQ sinceQ qQ).offset = offset) ∧
    (List.insertionSort rowLE
        (st.filter (evalConds (conds fromQ sinceQ qQ)))).Perm
      (st.filter (evalConds (conds fromQ sinceQ qQ))) ∧
    (∀ k n : Nat, 1 ≤ k → k ≤ 100 →
      (messages st k 0 fromQ sinceQ qQ).total ≤ n * k →
      ((List.range n).map
          (fun i => (messages st k (i * k) fromQ sinceQ qQ).data)).flatten
        = List.insertionSort rowLE
            (st.filter (evalConds (conds fromQ sinceQ qQ)))) := by
  refine ⟨fun limit offset => ⟨rfl, rfl, rfl⟩,
    List.perm_insertionSort _ _, ?_⟩
  intro k n _ _ htot
  have hdata : ∀ i : Nat, (messages st k (i * k) fromQ sinceQ qQ).data
      = ((List.insertionSort rowLE
          (st.filter (evalConds (conds fromQ sinceQ qQ)))).drop (i * k)).take
            k := fun _ => rfl
  simp only [hdata]
  rw [flatten_chunks_take]
  refine List.take_of_length_le ?_
  rw [(List.perm_insertionSort rowLE
    (st.filter (evalConds (conds fromQ sinceQ qQ)))).length_eq]
  exact htot

/-- C7 witness: totals, echoes and two-page reconstruction on the demo
store with page size 1. -/
theorem claim_C7_witness :
    ((List.range 2).map
        (fun i => (messages demoStore 1 (i * 1) none none none).data)).flatten
      = List.insertionSort rowLE
          (demoStore.filter (evalConds (conds none none none))) :=
  (claim_C7_pagination demoStore none none none).2.2 1 2 (by decide)
    (by decide) (by decide)

/-- C8.  Stats on a non-empty store: `total_messages` is the row count;
`messages_per_sender` is a ranking of distinct senders with their true
message counts, sorted by count descending (ties resolved
deterministically by the sort), truncated to at most 10 entries, and
dominating every sender left out of it; `senders_count` equals the
number of entries of that truncated ranking, i.e. `min 10 #distinct` —
not the true distinct-sender count when more than 10 senders exist; and
`first_message_ts`/`last_message_ts` are the minimum and maximum `ts`
over all rows. -/
theorem claim_C8_stats (st : List Row) (hne : st ≠ []) :
    (stats st).total_messages = st.length ∧
    List.Pairwise (fun a b : String × Nat => b.2 ≤ a.2)
      (stats st).messages_per_sender ∧
    (∀ p ∈ (stats st).messages_per_sender,
      p.1 ∈ sendersList st ∧ p.2 = countSender st p.1) ∧
    ((stats st).messages_per_sender.map Prod.fst).Nodup ∧
    (stats st).messages_per_sender.length = min 10 (sendersList st).length ∧
    (∀ s ∈ sendersList st,
      s ∉ (stats st).messages_per_sender.map Prod.fst →
      ∀ p ∈ (stats st).messages_per_sender, countSender st s ≤ p.2) ∧
    (stats st).senders_count = (stats st).messages_per_sender.length ∧
    (∃ a, (stats st).first_message_ts = some a ∧
      (∃ r ∈ st, r.ts = a) ∧ ∀ r ∈ st, a ≤ r.ts) ∧
    (∃ b, (stats st).last_message_ts = some b ∧
      (∃ r ∈ st, r.ts = b) ∧ ∀ r ∈ st, r.ts ≤ b) := by
  have h0 : (st.length == 0) = false := by
    rw [beq_eq_false_iff_ne]
    exact fun h => hne (List.length_eq_zero.mp h)
  have hstats : stats st
      = ⟨st.length, (ranking st).length, ranking st, minTs st, maxTs st⟩ := by
    simp [stats, h0]
  have hsorted : List.Pairwise countGE
      (List.insertionSort countGE (senderCounts st)) :=
    List.sorted_insertionSort countGE (senderCounts st)
  rw [hstats]
  refine ⟨rfl, ?_, ?_, ?_, ?_, ?_, rfl, ?_, ?_⟩
  · exact List.Pairwise.sublist (List.take_sublist _ _) hsorted
  · intro p hp
    have hpC : p ∈ senderCounts st :=
      (List.perm_insertionSort countGE (senderCounts st)).subset
        ((List.take_sublist _ _).subset hp)
    rcases List.mem_map.mp hpC with ⟨s, hs, rfl⟩
    exact ⟨hs, rfl⟩
  · have hmapC : (senderCounts st).map Prod.fst = sendersList st := by
      simp only [senderCounts, List.map_map]
      exact List.map_id _
    have hndC : ((senderCounts st).map Prod.fst).Nodup := by
      rw [hmapC]; exact List.nodup_dedup _
    have hndS := (((List.perm_insertionSort countGE
      (senderCounts st)).map Prod.fst).symm).nodup hndC
    exact ((List.take_sublist _ _).map Prod.fst).nodup hndS
  · show (List.take 10 (List.insertionSort countGE (senderCounts st))).length = _
    rw [List.length_take,
      (List.perm_insertionSort countGE (senderCounts st)).length_eq]
    simp [senderCounts]
  · intro s hs hnotin p hp
    have hmem : (s, countSender st s)
        ∈ List.insertionSort countGE (senderCounts st) :=
      (List.perm_insertionSort countGE (senderCounts st)).symm.subset
        (List.mem_map_of_mem _ hs)
    have hsplit := List.take_append_drop 10
      (List.insertionSort countGE (senderCounts st))
    rw [← hsplit] at hsorted hmem
    obtain ⟨_, _, hcross⟩ := List.pairwise_append.mp hsorted
    rcases List.mem_append.mp hmem with h | h
    · exact absurd (List.mem_map_of_mem Prod.fst h) hnotin
    · exact hcross p hp (s, countSender st s) h
  · cases st with
    | nil => exact absurd rfl hne
    | cons r0 rest =>
      refine ⟨(rest.map Row.ts).foldl min r0.ts, rfl, ?_, ?_⟩
      · rcases foldl_min_mem (rest.map Row.ts) r0.ts with h | h
        · exact ⟨r0, List.mem_cons_self _ _, h.symm⟩
        · rcases List.mem_map.mp h with ⟨r, hr, hrts⟩
          exact ⟨r, List.mem_cons_of_mem _ hr, hrts⟩
      · intro r hr
        obtain ⟨h1, h2⟩ := foldl_min_le (rest.map Row.ts) r0.ts
        rcases List.mem_cons.mp hr with h | h
        · rw [h]; exact h1
        · exact h2 r.ts (List.mem_map_of_mem _ h)
  · cases st with
    | nil => exact absurd rfl hne
    | cons r0 rest =>
      refine ⟨(rest.map Row.ts).foldl max r0.ts, rfl, ?_, ?_⟩
      · rcases foldl_max_mem (rest.map Row.ts) r0.ts with h | h
        · exact ⟨r0, List.mem_cons_self _ _, h.symm⟩
        · rcases List.mem_map.mp h with ⟨r, hr, hrts⟩
          exact ⟨r, List.mem_cons_of_mem _ hr, hrts⟩
      · intro r hr
        obtain ⟨h1, h2⟩ := foldl_max_le (rest.map Row.ts) r0.ts
        rcases List.mem_cons.mp hr with h | h
        · rw [h]; exact h1
        · exact h2 r.ts (List.mem_map_of_mem _ h)

/-- C8 witness: the stats contract applied to the non-empty demo
store. -/
theorem claim_C8_witness :
    (stats demoStore).total_messages = demoStore.length ∧
    List.Pairwise (fun a b : String × Nat => b.2 ≤ a.2)
      (stats demoStore).messages_per_sender ∧
    (∀ p ∈ (stats demoStore).messages_per_sender,
      p.1 ∈ sendersList demoStore ∧ p.2 = countSender demoStore p.1) ∧
    ((stats demoStore).messages_per_sender.map Prod.fst).Nodup ∧
    (stats demoStore).messages_per_sender.length
        = min 10 (sendersList demoStore).length ∧
    (∀ s ∈ sendersList demoStore,
      s ∉ (stats demoStore).messages_per_sender.map Prod.fst →
      ∀ p ∈ (stats demoStore).messages_per_sender,
        countSender demoStore s ≤ p.2) ∧
    (stats demoStore).senders_count
        = (stats demoStore).messages_per_sender.length ∧
    (∃ a, (stats demoStore).first_message_ts = some a ∧
      (∃ r ∈ demoStore, r.ts = a) ∧ ∀ r ∈ demoStore, a ≤ r.ts) ∧
    (∃ b, (stats demoStore).last_message_ts = some b ∧
      (∃ r ∈ demoStore, r.ts = b) ∧ ∀ r ∈ demoStore, r.ts ≤ b) :=
  claim_C8_stats demoStore (by decide)

end Lyftr
